import Mathlib

/-!
Shallow embedding of the core of `cargo-machete` (src/main.rs, src/search_unused.rs).

Strings are modelled as `List Char`.  All inputs considered are ASCII, on which the
Unicode-aware character classes of the Rust `regex` crate (`\w`, `\s`, case folding)
coincide with the ASCII definitions used here.
-/

set_option maxRecDepth 100000

namespace CargoMachete

/-- The class `\w` of the regex crate, restricted to ASCII: `[A-Za-z0-9_]`. -/
def isWordChar (c : Char) : Bool :=
  c.isAlpha || c.isDigit || c == '_'

/-- The class `\s` of the regex crate, restricted to ASCII. -/
def isSpaceChar (c : Char) : Bool :=
  c == ' ' || c == '\t' || c == '\n' || c == '\r' || c == '\x0b' || c == '\x0c'

/-- Lower-casing used to model the `(?i)` flag (ASCII simple case folding). -/
def lowerChar (c : Char) : Char := c.toLower

/-- Does `s` start with the literal `pat`? -/
def startsWithL : List Char → List Char → Bool
  | [], _ => true
  | _ :: _, [] => false
  | p :: ps, c :: cs => p == c && startsWithL ps cs

/-- Strip the literal `pat` from the front of `s`, returning the remainder. -/
def dropStart? : List Char → List Char → Option (List Char)
  | [], s => some s
  | _ :: _, [] => none
  | p :: ps, c :: cs => if p == c then dropStart? ps cs else none

/-- Strip `pat` from the front of `s` case-insensitively (models `(?i)pat(?-i)`). -/
def dropStartCI? : List Char → List Char → Option (List Char)
  | [], s => some s
  | _ :: _, [] => none
  | p :: ps, c :: cs => if lowerChar p == lowerChar c then dropStartCI? ps cs else none

/-!
## Single-line matcher

Translated from `make_line_regexp` (src/search_unused.rs):

    use (::)?(?i){name}(?-i)(::|;| as)
  | (?:[^:]|^|\W::)\b(?i){name}(?-i)::
  | extern crate (?i){name}(?-i)( |;)

The regexp is used unanchored on a single line.  We scan every position `i` of the
line; `post` is the suffix starting at `i` and `pre` the reversed prefix before `i`
(so `pre.head?` is the character immediately before position `i`).
-/

/-- First alternative: `use (::)?(?i){name}(?-i)(::|;| as)`, with the match starting
at the current position. -/
def lineAltUse (name post : List Char) : Bool :=
  match dropStart? "use ".data post with
  | none => false
  | some r =>
    -- `(::)?`: `name` starts with a word character, never with `:`, so the greedy
    -- optional group is exact.
    let r := (dropStart? "::".data r).getD r
    match dropStartCI? name r with
    | none => false
    | some r2 => startsWithL "::".data r2 || startsWithL ";".data r2 || startsWithL " as".data r2

/-- Second alternative: `(?:[^:]|^|\W::)\b(?i){name}(?-i)::`.  The scan position `i`
is the start of `name`; the `(?:[^:]|^|\W::)` group and the word boundary `\b`
constrain the characters before `i` (`name` starts with a word character, so `\b`
holds iff the preceding character is not a word character). -/
def lineAltQualified (name : List Char) (pre post : List Char) : Bool :=
  let nameHere : Bool :=
    match dropStartCI? name post with
    | none => false
    | some r => startsWithL "::".data r
  let preOk : Bool :=
    match pre with
    | [] => true                                   -- `^` (start of line)
    | p :: rest =>
      -- `[^:]` followed by `\b`: previous char is neither `:` nor a word char,
      (!(p == ':') && !isWordChar p) ||
      -- or `\W::` followed by `\b` (`:` is not a word char, so `\b` holds).
      (p == ':' && (match rest with
                    | q :: w :: _ => q == ':' && !isWordChar w
                    | _ => false))
  nameHere && preOk

/-- Third alternative: `extern crate (?i){name}(?-i)( |;)`. -/
def lineAltExternCrate (name post : List Char) : Bool :=
  match dropStart? "extern crate ".data post with
  | none => false
  | some r =>
    match dropStartCI? name r with
    | none => false
    | some r2 => startsWithL " ".data r2 || startsWithL ";".data r2

/-- Does the single-line regexp of `make_line_regexp name` match anywhere in `line`? -/
def lineRegexpMatches (name line : List Char) : Bool :=
  (List.range (line.length + 1)).any fun i =>
    let post := line.drop i
    let pre := (line.take i).reverse
    lineAltUse name post || lineAltQualified name pre post || lineAltExternCrate name post

/-!
## Regular-expression engine (Brzozowski derivatives)

The multi-line pattern of `make_multiline_regexp` is a pure regular expression (no
anchors, no word boundaries), so it is embedded as a regex AST and decided with a
standard derivative matcher.
-/

/-- The character classes occurring in the patterns: a literal character, `\w`,
`\s` and `[^{}]`. -/
inductive CharClass where
  | single : Char → CharClass
  | word : CharClass
  | space : CharClass
  | notBrace : CharClass
deriving BEq

/-- Membership in a character class. -/
def CharClass.test : CharClass → Char → Bool
  | .single c, d => c == d
  | .word, d => isWordChar d
  | .space, d => isSpaceChar d
  | .notBrace, d => !(d == '{' || d == '}')

/-- Regular expressions over `Char`. -/
inductive RE where
  | emp : RE
  | eps : RE
  | cls : CharClass → RE
  | cat : RE → RE → RE
  | alt : RE → RE → RE
  | star : RE → RE
deriving BEq

/-- Does `r` accept the empty word? -/
def RE.nullable : RE → Bool
  | .emp => false
  | .eps => true
  | .cls _ => false
  | .cat a b => a.nullable && b.nullable
  | .alt a b => a.nullable || b.nullable
  | .star _ => true

/-- Smart concatenation (normalizes `emp` and `eps`). -/
def RE.scat : RE → RE → RE
  | .emp, _ => .emp
  | _, .emp => .emp
  | .eps, b => b
  | a, .eps => a
  | a, b => .cat a b

/-- Is `a` one of the alternatives of the right-nested alternation list `b`? -/
def RE.altMem (a : RE) : RE → Bool
  | .alt x y => a == x || RE.altMem a y
  | r => a == r

/-- Smart alternation: drops `emp`, flattens, and deduplicates alternatives, so
that derivatives stay small.  Semantically `L (salt a b) = L a ∪ L b`. -/
def RE.salt : RE → RE → RE
  | .emp, b => b
  | a, .emp => a
  | .alt x y, b => RE.salt x (RE.salt y b)
  | a, b => if RE.altMem a b then b else .alt a b

/-- Brzozowski derivative of `r` with respect to the character `c`. -/
def RE.deriv : RE → Char → RE
  | .emp, _ => .emp
  | .eps, _ => .emp
  | .cls p, c => if p.test c then .eps else .emp
  | .cat a b, c =>
    if a.nullable then .salt (.scat (a.deriv c) b) (b.deriv c)
    else .scat (a.deriv c) b
  | .alt a b, c => .salt (a.deriv c) (b.deriv c)
  | .star a, c => .scat (a.deriv c) (.star a)

/-- Does some prefix of `s` belong to the language of `r`? -/
def RE.matchesSomeStart : RE → List Char → Bool
  | .emp, _ => false
  | r, [] => r.nullable
  | r, c :: cs => r.nullable || (r.deriv c).matchesSomeStart cs

/-- All lengths `n` such that `s.take n` belongs to the language of `r`. -/
def RE.matchEnds (r : RE) (s : List Char) : List Nat :=
  go r s 0
where
  go : RE → List Char → Nat → List Nat
    | .emp, _, _ => []
    | r, [], n => if r.nullable then [n] else []
    | r, c :: cs, n =>
      (if r.nullable then [n] else []) ++ go (r.deriv c) cs (n + 1)

/-- Does `r` match a substring of `s` starting anywhere? -/
def RE.foundIn : RE → List Char → Bool
  | r, [] => r.matchesSomeStart []
  | r, s@(_ :: cs) => r.matchesSomeStart s || r.foundIn cs

/-- Single-character literal. -/
def lit1 (c : Char) : RE := .cls (.single c)

/-- Literal word. -/
def litW (s : List Char) : RE := s.foldr (fun c r => .cat (lit1 c) r) .eps

/-- Models `r?`. -/
def reOpt (r : RE) : RE := .alt r .eps

/-- Models `r+`. -/
def rePlus (r : RE) : RE := .cat r (.star r)

/-- Models `\w`. -/
def reW : RE := .cls .word

/-- Models `\s`. -/
def reS : RE := .cls .space

/-- Models the class of all characters other than braces. -/
def reNotBrace : RE := .cls .notBrace

/-!
## Multi-line matcher

Translated from `make_multiline_regexp` (src/search_unused.rs):

    use \{\s*(?:(::)?\w+S\s*,\s*)*(::)?{name}S\s*(?:\s*,\s*(::)?\w+S)*\s*,?\s*\};

where `S` is `sub_modules_match`:

    (?:::\w+)*(?:::\*|\s+as\s+\w+|::\{ D3 \})?

and the brace group nests `(?:[^{}]*(?:\{ … \})?[^{}]*)*` four levels deep, the
innermost level being `[^{}]*`.
-/

/-- One level of the brace-group body: `(?:[^{}]*(?:\{ inner \})?[^{}]*)*`. -/
def braceLevel (inner : RE) : RE :=
  .star (.cat (.star reNotBrace)
    (.cat (reOpt (.cat (lit1 '{') (.cat inner (lit1 '}')))) (.star reNotBrace)))

/-- The fragment `sub_modules_match` from the source. -/
def subModulesMatch : RE :=
  let d3 := braceLevel (braceLevel (braceLevel (.star reNotBrace)))
  .cat (.star (.cat (litW "::".data) (rePlus reW)))
    (reOpt (.alt (litW "::*".data)
      (.alt (.cat (rePlus reS) (.cat (litW "as".data) (.cat (rePlus reS) (rePlus reW))))
        (.cat (litW "::".data) (.cat (lit1 '{') (.cat d3 (lit1 '}')))))))

/-- Models a comma with optional surrounding whitespace. -/
def reCommaSpaced : RE := .cat (.star reS) (.cat (lit1 ',') (.star reS))

/-- The full regexp of `make_multiline_regexp name`. -/
def multilineRegexp (name : List Char) : RE :=
  .cat (litW "use ".data) (.cat (lit1 '{') (.cat (.star reS)
    -- `(?:(::)?\w+S\s*,\s*)*`
    (.cat (.star (.cat (reOpt (litW "::".data))
        (.cat (rePlus reW) (.cat subModulesMatch reCommaSpaced))))
      -- `(::)?{name}S\s*`  — note: the crate name is matched case-sensitively here
      (.cat (reOpt (litW "::".data)) (.cat (litW name) (.cat subModulesMatch
        (.cat (.star reS)
          -- `(?:\s*,\s*(::)?\w+S)*`
          (.cat (.star (.cat reCommaSpaced (.cat (reOpt (litW "::".data))
              (.cat (rePlus reW) subModulesMatch))))
            -- `\s*,?\s*\};`
            (.cat (.star reS) (.cat (reOpt (lit1 ',')) (.cat (.star reS)
              (.cat (lit1 '}') (lit1 ';')))))))))))))

/-!
## The `Search` strategy (struct `Search`, `StopAfterFirstMatch`)

`Search::search_string` runs the line-oriented searcher first and, when it finds
nothing, the multi-line searcher (`try_singleline_then_multiline`).  The sink
(`StopAfterFirstMatch::matched`) skips a reported match whose trimmed bytes start
with `//` (single-line comments) and otherwise stops with success.
-/

/-- Split content into lines at `\n` (the line terminators themselves never take
part in any of the patterns). -/
def splitLines : List Char → List (List Char)
  | [] => [[]]
  | c :: cs =>
    if c == '\n' then [] :: splitLines cs
    else
      match splitLines cs with
      | [] => [[c]]
      | l :: ls => (c :: l) :: ls

/-- Rust `str::trim` (Unicode whitespace; ASCII subset here). -/
def trimChars (s : List Char) : List Char :=
  ((s.dropWhile isSpaceChar).reverse.dropWhile isSpaceChar).reverse

/-- The comment filter of `StopAfterFirstMatch::matched`:
`mat.trim()` starts with `//` or `//!`. -/
def isCommentMatch (mat : List Char) : Bool :=
  let t := trimChars mat
  startsWithL "//".data t || startsWithL "//!".data t

/-- Single-line phase: some line matches the line regexp and survives the comment
filter.  (The searcher hands the sink the matching line.) -/
def singlelineFound (name content : List Char) : Bool :=
  (splitLines content).any fun line =>
    lineRegexpMatches name line && !(isCommentMatch line)

/-- Start of the line containing position `i` of `content`. -/
def lineStartAt (content : List Char) (i : Nat) : Nat :=
  i - ((content.take i).reverse.takeWhile (fun c => !(c == '\n'))).length

/-- End (exclusive) of the line containing position `j` of `content`. -/
def lineEndAt (content : List Char) (j : Nat) : Nat :=
  j + ((content.drop j).takeWhile (fun c => !(c == '\n'))).length

/-- The complete lines of `content` spanning the byte range `[i, j)` — what the
multi-line searcher hands the sink for a match over that range. -/
def matchRegion (content : List Char) (i j : Nat) : List Char :=
  (content.take (lineEndAt content j)).drop (lineStartAt content i)

/-- Multi-line phase: some substring matches `make_multiline_regexp` and the lines
spanning it survive the comment filter.  (The searcher enumerates leftmost
non-overlapping matches; the existential abstracts that iteration and agrees with
it whenever accepted and rejected matches do not overlap — in particular on any
content in which no match region is comment-trimmed, and on content in which every
match region is.) -/
def multilineFound (name content : List Char) : Bool :=
  let r := multilineRegexp name
  (List.range (content.length + 1)).any fun i =>
    (r.matchEnds (content.drop i)).any fun len =>
      !(isCommentMatch (matchRegion content i (i + len)))

/-- Models `Search::search_string`: single-line phase first, then the multi-line phase
(`try_singleline_then_multiline`). -/
def searchChars (name content : List Char) : Bool :=
  singlelineFound name content || multilineFound name content

/-- The search on `String` values. -/
def searchString (crateName content : String) : Bool :=
  searchChars crateName.data content.data

/-- The assertion at the top of `Search::new`: `assert!(!crate_name.contains('-'))`. -/
def searchNewAssertHolds (crateName : String) : Bool :=
  !(crateName.data.contains '-')

/-!
## Dependency resolution (`find_unused`, src/search_unused.rs lines 361–434)

The dependency map `declared-key → crate-identifier` is collected into a
`BTreeMap<String, String>`, modelled as a key-sorted association list with unique
keys (last insertion wins), matching `BTreeMap::from_iter`.
-/

/-- Models `k.replace('-', "_")`. -/
def replaceDashes (s : String) : String :=
  ⟨s.data.map fun c => if c == '-' then '_' else c⟩

/-- Insert into a key-sorted association list, replacing an existing binding. -/
def btreeInsert (k v : String) : List (String × String) → List (String × String)
  | [] => [(k, v)]
  | (k', v') :: rest =>
    if k = k' then (k, v) :: rest
    else if k < k' then (k, v) :: (k', v') :: rest
    else (k', v') :: btreeInsert k v rest

/-- Models `collect::<BTreeMap<String, String>>()`. -/
def btreeCollect (l : List (String × String)) : List (String × String) :=
  l.foldl (fun acc kv => btreeInsert kv.1 kv.2 acc) []

/-- A dependency spec of the root package in the `cargo metadata` output
(`cargo_metadata::Dependency`): the package name and the optional `rename`. -/
structure MetaDependency where
  name : String
  rename : Option String

/-- One edge of a resolve node (`cargo_metadata::NodeDep`): the extern crate name
and the package id of the target. -/
structure MetaNodeDep where
  name : String
  pkg : String

/-- A node of the resolve graph (`cargo_metadata::Node`). -/
structure MetaNode where
  id : String
  deps : List MetaNodeDep

/-- The resolve graph (`cargo_metadata::Resolve`). -/
structure MetaResolve where
  root : Option String
  nodes : List MetaNode

/-- A package entry of the metadata (`cargo_metadata::Package`). -/
structure MetaPackage where
  id : String
  name : String
  dependencies : List MetaDependency

/-- The `cargo metadata` output consumed by `find_unused`. -/
structure Metadata where
  packages : List MetaPackage
  resolve : Option MetaResolve

/-- The metadata-assisted resolution of `find_unused` (lines 371–422): for every
dep edge of the root node, crate-identifier is the edge's extern name and
declared-key is the matching dependency spec's `rename`, defaulting to its package
name.  `none` models the `.expect(…)` panics on malformed metadata. -/
def resolvedDependencies (metadata : Metadata) (resolve : MetaResolve) (root : String) :
    Option (List (String × String)) := do
  let rootNode ← resolve.nodes.find? fun node => node.id == root
  let rootPackage ← metadata.packages.find? fun pkg => pkg.id == root
  rootNode.deps.mapM fun dep => do
    let crateName := dep.name
    let depPkg ← metadata.packages.find? fun pkg => pkg.id == dep.pkg
    -- first matching spec (`dep_spec_it.next()`)
    let depSpec ← rootPackage.dependencies.find? fun depSpec => depSpec.name == depPkg.name
    pure (depSpec.rename.getD depSpec.name, crateName)

/-- The `[package]` section fields `find_unused` reads: the name and
`package.metadata.cargo-machete.ignored`. -/
structure PackageSection where
  name : String
  metadataIgnored : Option (List String)

/-- The view of a `Cargo.toml` manifest `find_unused` consumes: the package
section and the declared keys of the four dependency-table classes.  Only
`dependencies` (the runtime table) is read by the resolver; the other tables are
carried to state that. -/
structure Manifest where
  package : Option PackageSection
  dependencies : List String
  devDependencies : List String
  buildDependencies : List String
  targetDependencies : List (String × List String)

/-- The dependency map (lines 366–434): metadata-assisted when metadata with a
resolve section is present (empty for a virtual workspace root), manifest-only
otherwise. -/
def computeDependencies (m : Manifest) (metadata : Option Metadata) :
    Option (List (String × String)) :=
  match metadata.bind fun md => md.resolve.map fun r => (md, r) with
  | some (md, resolve) =>
    match resolve.root with
    | some root => (resolvedDependencies md resolve root).map btreeCollect
    | none => some (btreeCollect [])
  | none =>
    some (btreeCollect (m.dependencies.map fun k => (k, replaceDashes k)))

/-!
## Classification and aggregation (`find_unused`, lines 436–498)
-/

/-- The list `package.metadata.cargo-machete.ignored`, defaulting to the empty set. -/
def packageIgnored (m : Manifest) : List String :=
  ((m.package.bind fun p => p.metadataIgnored).getD [])

/-- The per-dependency result (enum `SingleDepResult`). -/
inductive SingleDepResult where
  | unused : String → SingleDepResult
  | ignoredButUsed : String → SingleDepResult
deriving DecidableEq

/-- The classification of one dependency (the tail of the `filter_map` closure,
lines 475–487). -/
def classifyDep (ignored workspaceIgnored : List String) (depName : String)
    (foundOnce : Bool) : Option SingleDepResult :=
  if !foundOnce then
    if ignored.contains depName || workspaceIgnored.contains depName then none
    else some (.unused depName)
  else
    if ignored.contains depName then some (.ignoredButUsed depName)
    else none

/-- Models `found_once`: does any collected source file reference the crate (lines
460–473)?  Search errors on a file count as "not found" and are not modelled. -/
def foundOnceIn (crateName : String) (files : List String) : Bool :=
  files.any fun content => searchString crateName content

/-- The parallel classification of all dependencies (lines 455–489; rayon's
`collect` preserves order). -/
def depResults (deps : List (String × String)) (ignored workspaceIgnored : List String)
    (files : List String) : List SingleDepResult :=
  deps.filterMap fun kv => classifyDep ignored workspaceIgnored kv.1 (foundOnceIn kv.2 files)

/-- The aggregation loop (lines 491–496): push each result onto `unused` or
`ignored_used`. -/
def collectAnalysis (results : List SingleDepResult) : List String × List String :=
  results.foldl
    (fun acc r =>
      match r with
      | .unused dep => (acc.1 ++ [dep], acc.2)
      | .ignoredButUsed dep => (acc.1, acc.2 ++ [dep]))
    ([], [])

/-- The per-package output of `find_unused` (struct `PackageAnalysis`). -/
structure PackageAnalysis where
  packageName : String
  unused : List String
  ignoredUsed : List String
deriving DecidableEq

/-- Models `find_unused` (src/search_unused.rs lines 334–499), with the filesystem
abstracted: the parsed manifest, the workspace-inherited ignore list (from
`get_full_manifest`), the optional `cargo metadata` output, and the contents of
the collected source files.  The outer `Option` is `none` on an `.expect(…)`
panic; the inner `Option` is `none` for a manifest without a `[package]` section
(line 347). -/
def find_unused (m : Manifest) (workspaceIgnored : List String)
    (metadata : Option Metadata) (files : List String) :
    Option (Option PackageAnalysis) :=
  match m.package with
  | none => some none
  | some pkg =>
    (computeDependencies m metadata).map fun deps =>
      let r := collectAnalysis (depResults deps (packageIgnored m) workspaceIgnored files)
      some ⟨pkg.name, r.1, r.2⟩

/-!
## Manifest rewriting (`get_table_deps` / `remove_dependencies`, src/main.rs)

A `toml_edit::DocumentMut` is modelled as an association list of top-level items;
an item is either table-like (`as_table_like_mut` succeeds) or not.  `toml_edit`
preserves everything not edited, so serialization is the identity on the model.

`get_table_deps(it, top_level)` recurses at most once (the `"target"` arm requires
`top_level`), so the `top_level = false` instance is written out as the `…Inner`
functions.  The source collects the matched tables once and mutates them through
references; here each dependency-removal step recomputes the matched tables from
the current document, which agrees because removing dependency keys changes
neither the set of matched tables nor their names.
-/

/-- A `toml_edit` item: table-like or not. -/
inductive TomlItem where
  | table : List (String × TomlItem) → TomlItem
  | value : TomlItem

/-- The dependency-table keys matched by `get_table_deps`. -/
def isDepTableKey (k : String) : Bool :=
  k == "dependencies" || k == "build-dependencies" || k == "dev-dependencies"

/-- Does `s` start with `pre` (Rust `str::starts_with`)? -/
def strStartsWith (pre s : String) : Bool :=
  startsWithL pre.data s.data

/-- Models `get_table_deps` with `top_level = false`: collect the dependency tables of
one `target.'cfg(…)'` subtable as `(key, entries)` snapshots; a dependency-named
item that is not table-like is the error named after its key. -/
def getTableDepsInner : List (String × TomlItem) →
    Except String (List (String × List (String × TomlItem)))
  | [] => .ok []
  | (k, v) :: rest =>
    if isDepTableKey k then
      match v with
      | .table entries => (getTableDepsInner rest).map fun ts => (k, entries) :: ts
      | .value => .error k
    else
      getTableDepsInner rest

/-- The `"target"` arm of `get_table_deps`: for every key of the target table
starting with `cfg(` whose value is table-like, collect its dependency tables. -/
def getTableDepsTargets : List (String × TomlItem) →
    Except String (List (String × List (String × TomlItem)))
  | [] => .ok []
  | (tk, tv) :: rest =>
    if strStartsWith "cfg(" tk then
      match tv with
      | .table tentries =>
        (getTableDepsInner tentries).bind fun ts =>
          (getTableDepsTargets rest).map fun ts' => ts ++ ts'
      | .value => getTableDepsTargets rest
    else
      getTableDepsTargets rest

/-- Models `get_table_deps` with `top_level = true` (src/main.rs lines 293–323). -/
def get_table_deps : List (String × TomlItem) →
    Except String (List (String × List (String × TomlItem)))
  | [] => .ok []
  | (k, v) :: rest =>
    if isDepTableKey k then
      match v with
      | .table entries => (get_table_deps rest).map fun ts => (k, entries) :: ts
      | .value => .error k
    else if k == "target" then
      match v with
      | .table targets =>
        (getTableDepsTargets targets).bind fun ts =>
          (get_table_deps rest).map fun ts' => ts ++ ts'
      | .value => .error "target"
    else
      get_table_deps rest

/-- Remove the key `dep` from every table `get_table_deps` matches at the inner
(`top_level = false`) layer. -/
def removeDepInner (dep : String) (items : List (String × TomlItem)) :
    List (String × TomlItem) :=
  items.map fun kv =>
    if isDepTableKey kv.1 then
      match kv.2 with
      | .table entries => (kv.1, .table (entries.filter fun e => !(e.1 == dep)))
      | .value => kv
    else kv

/-- Remove the key `dep` from the dependency tables of the `cfg(…)`-keyed
subtables of a target table. -/
def removeDepTargets (dep : String) (targets : List (String × TomlItem)) :
    List (String × TomlItem) :=
  targets.map fun t =>
    if strStartsWith "cfg(" t.1 then
      match t.2 with
      | .table tentries => (t.1, .table (removeDepInner dep tentries))
      | .value => t
    else t

/-- Remove the key `dep` from every table `get_table_deps` matches at the top
layer (`table.remove(dep)` on each matched table). -/
def removeDepEverywhere (dep : String) (items : List (String × TomlItem)) :
    List (String × TomlItem) :=
  items.map fun kv =>
    if isDepTableKey kv.1 then
      match kv.2 with
      | .table entries => (kv.1, .table (entries.filter fun e => !(e.1 == dep)))
      | .value => kv
    else if kv.1 == "target" then
      match kv.2 with
      | .table targets => (kv.1, .table (removeDepTargets dep targets))
      | .value => kv
    else kv

/-- The error of `remove_dependencies` when a requested name was in no searched
table: `anyhow!("{dep} not found").context(format!("tables: {tables}"))` — the
attempted name together with the names of the searched tables. -/
structure RemoveError where
  depName : String
  tables : List String
deriving DecidableEq

/-- Models `remove_dependencies` (src/main.rs lines 325–361): for each requested name,
delete it from every matched dependency table; fail if no matched table contained
it.  The document outside the matched tables is returned unchanged. -/
def remove_dependencies (doc : List (String × TomlItem)) (dependencyList : List String) :
    Except (Option RemoveError) (List (String × TomlItem)) :=
  match get_table_deps doc with
  | .error _ => .error none   -- a dependency-named item was not table-like
  | .ok _ =>
    dependencyList.foldlM
      (fun d dep =>
        match get_table_deps d with
        | .error _ => .error none   -- unreachable: removal preserves table-likeness
        | .ok matched =>
          if matched.any fun t => t.2.any fun e => e.1 == dep then
            .ok (removeDepEverywhere dep d)
          else
            .error (some ⟨dep, matched.map fun t => t.1⟩))
      doc

/-!
## Top-level coordination (`run_machete`, src/main.rs lines 176–231)
-/

/-- The outcome of `find_unused` for one manifest path as `run_machete` sees it. -/
inductive FindUnusedOutcome where
  | found : PackageAnalysis → FindUnusedOutcome   -- `Ok(Some(analysis))`
  | virtualManifest : FindUnusedOutcome           -- `Ok(None)`
  | failed : FindUnusedOutcome                    -- `Err(err)` (logged, skipped)
deriving DecidableEq

/-- The `filter_map` over manifest paths (lines 176–202): keep `(analysis, path)`
only when the analysis exists and its `unused` list is non-empty. -/
def analysisResults (entries : List (String × FindUnusedOutcome)) :
    List (PackageAnalysis × String) :=
  entries.filterMap fun e =>
    match e.2 with
    | .found analysis => if analysis.unused.isEmpty then none else some (analysis, e.1)
    | .virtualManifest => none
    | .failed => none

/-- The `ignored_used` warnings printed by the reporting loop (lines 216–231),
as (manifest path, dependency) pairs. -/
def printedWarnings (results : List (PackageAnalysis × String)) : List (String × String) :=
  results.flatMap fun r => r.1.ignoredUsed.map fun dep => (r.2, dep)

/-- The manifest paths rewritten by the fix path (lines 227–230). -/
def fixedManifests (fix : Bool) (results : List (PackageAnalysis × String)) : List String :=
  if fix then results.map fun r => r.2 else []


/-- Projection of an `unused` result. -/
def unusedPart : SingleDepResult → Option String
  | .unused d => some d
  | .ignoredButUsed _ => none

/-- Projection of an `ignoredButUsed` result. -/
def ignoredPart : SingleDepResult → Option String
  | .unused _ => none
  | .ignoredButUsed d => some d

/-- Filter a searched-table snapshot by removing the entries keyed `dep`. -/
def filterTableSnap (dep : String) (t : String × List (String × TomlItem)) :
    String × List (String × TomlItem) :=
  (t.1, t.2.filter fun e => !(e.1 == dep))

/-!
## Concrete scenarios
-/

/-- Manifest of the *renamed-in-spec* scenario: the single runtime dependency is
declared as `tracing = { package = "log" }`, so the declared key is `tracing`. -/
def c2Manifest : Manifest :=
  { package := some { name := "renamed", metadataIgnored := none }
    dependencies := ["tracing"], devDependencies := [], buildDependencies := []
    targetDependencies := [] }

/-- The only source file of the *renamed-in-spec* scenario. -/
def c2Files : List String := ["log::info!();"]

/-- The `cargo metadata` output for the *renamed-in-spec* scenario: the resolve
edge carries the extern name `tracing` (the renamed name) and the dependency spec
of the root package records `rename = "tracing"` for the package `log`. -/
def c2Metadata : Metadata :=
  { packages :=
      [ { id := "renamed 0.1.0", name := "renamed",
          dependencies := [{ name := "log", rename := some "tracing" }] }
      , { id := "log 0.4.0", name := "log", dependencies := [] } ]
    resolve := some
      { root := some "renamed 0.1.0"
        nodes :=
          [ { id := "renamed 0.1.0", deps := [{ name := "tracing", pkg := "log 0.4.0" }] }
          , { id := "log 0.4.0", deps := [] } ] } }

/-- A manifest whose runtime dependency table is empty and whose dev-dependency
table declares `foo`. -/
def c3Manifest : Manifest :=
  { package := some { name := "p", metadataIgnored := none }
    dependencies := [], devDependencies := ["foo"], buildDependencies := []
    targetDependencies := [] }

/-- The `cargo metadata` output for `c3Manifest`: the resolve graph contains the
dev-dependency edge for `foo` (cargo resolves dev and build edges too), so the
metadata-derived dependency map contains the key `foo`. -/
def c3Metadata : Metadata :=
  { packages :=
      [ { id := "p 0.1.0", name := "p",
          dependencies := [{ name := "foo", rename := none }] }
      , { id := "foo 1.0.0", name := "foo", dependencies := [] } ]
    resolve := some
      { root := some "p 0.1.0"
        nodes :=
          [ { id := "p 0.1.0", deps := [{ name := "foo", pkg := "foo 1.0.0" }] }
          , { id := "foo 1.0.0", deps := [] } ] } }

/-- The dependency entries of the `target.x86_64-unknown-linux-gnu.dependencies`
table of `c8Doc`. -/
def c8TripleDeps : List (String × TomlItem) := [("winapi", .value)]

/-- A manifest document with a runtime table and a per-target dependency table
keyed by a target triple (not by a `cfg(…)` predicate). -/
def c8Doc : List (String × TomlItem) :=
  [ ("dependencies", .table [("log", .value)])
  , ("target", .table
      [("x86_64-unknown-linux-gnu", .table [("dependencies", .table c8TripleDeps)])]) ]

/-- A one-table document for exercising `remove_dependencies` on a present name. -/
def c8WitnessDoc : List (String × TomlItem) :=
  [ ("dependencies", .table [("log", .value), ("serde", .value)]) ]

/-!
# Helper lemmas
-/

theorem dropStartCI_congr (n1 n2 : List Char) (h : n1.map lowerChar = n2.map lowerChar) :
    ∀ s, dropStartCI? n1 s = dropStartCI? n2 s := by
  induction n1 generalizing n2 with
  | nil => cases n2 with
    | nil => intro s; rfl
    | cons q qs => simp at h
  | cons p ps ih =>
    cases n2 with
    | nil => simp at h
    | cons q qs =>
      simp only [List.map_cons, List.cons.injEq] at h
      intro s
      cases s with
      | nil => rfl
      | cons c cs =>
        simp only [dropStartCI?, h.1, ih qs h.2]

theorem lineRegexpMatches_ci (n1 n2 : List Char) (h : n1.map lowerChar = n2.map lowerChar)
    (line : List Char) : lineRegexpMatches n1 line = lineRegexpMatches n2 line := by
  simp only [lineRegexpMatches, lineAltUse, lineAltQualified, lineAltExternCrate,
    dropStartCI_congr n1 n2 h]

theorem collectAnalysis_go (rs : List SingleDepResult) (acc : List String × List String) :
    rs.foldl
      (fun acc r =>
        match r with
        | .unused dep => (acc.1 ++ [dep], acc.2)
        | .ignoredButUsed dep => (acc.1, acc.2 ++ [dep]))
      acc
    = (acc.1 ++ rs.filterMap unusedPart, acc.2 ++ rs.filterMap ignoredPart) := by
  induction rs generalizing acc with
  | nil => simp
  | cons r rs ih =>
    cases r with
    | unused d => simp [List.foldl_cons, ih, unusedPart, ignoredPart, List.filterMap_cons]
    | ignoredButUsed d => simp [List.foldl_cons, ih, unusedPart, ignoredPart, List.filterMap_cons]

theorem collectAnalysis_eq (rs : List SingleDepResult) :
    collectAnalysis rs = (rs.filterMap unusedPart, rs.filterMap ignoredPart) := by
  unfold collectAnalysis
  simpa using collectAnalysis_go rs ([], [])

theorem classifyDep_eq_some (ign ws : List String) (d : String) (f : Bool) (r : SingleDepResult)
    (h : classifyDep ign ws d f = some r) :
    (r = .unused d ∧ f = false ∧ ign.contains d = false ∧ ws.contains d = false)
    ∨ (r = .ignoredButUsed d ∧ f = true ∧ ign.contains d = true) := by
  cases f <;> simp only [classifyDep, Bool.not_true, Bool.not_false, if_true, if_false,
    Bool.false_eq_true, reduceIte] at h
  · by_cases h1 : ign.contains d = true <;> by_cases h2 : ws.contains d = true <;>
      simp [h1, h2] at h <;> simp_all
  · by_cases h1 : ign.contains d = true <;> simp [h1] at h <;> simp_all

theorem btreeInsert_mem (k v : String) (l : List (String × String)) :
    ∀ p ∈ btreeInsert k v l, p = (k, v) ∨ p ∈ l := by
  induction l with
  | nil => intro p hp; simp [btreeInsert] at hp; left; exact hp
  | cons q rest ih =>
    intro p hp
    unfold btreeInsert at hp
    by_cases h1 : k = q.1
    · simp only [h1, if_true, List.mem_cons] at hp
      rcases hp with h | h
      · left; rw [h, h1]
      · right; simp [h]
    · by_cases h2 : k < q.1
      · simp only [h1, h2, if_false, if_true, List.mem_cons] at hp
        rcases hp with h | h | h
        · left; exact h
        · right; simp [h]
        · right; simp [h]
      · simp only [h1, h2, if_false, List.mem_cons] at hp
        rcases hp with h | h
        · right; simp [h]
        · rcases ih p h with h' | h'
          · left; exact h'
          · right; simp [h']

theorem btreeInsert_keys_sup (k v : String) (l : List (String × String)) :
    ∀ k0 ∈ l.map Prod.fst, k0 ∈ (btreeInsert k v l).map Prod.fst := by
  induction l with
  | nil => simp
  | cons q rest ih =>
    intro k0 hk0
    rw [List.map_cons, List.mem_cons] at hk0
    unfold btreeInsert
    by_cases h1 : k = q.1
    · simp only [h1, if_true, List.map_cons, List.mem_cons]
      rcases hk0 with h | h
      · left; exact h
      · right; exact h
    · by_cases h2 : k < q.1
      · simp only [h1, h2, if_false, if_true, List.map_cons, List.mem_cons]
        rcases hk0 with h | h
        · right; left; exact h
        · right; right; exact h
      · simp only [h1, h2, if_false, List.map_cons, List.mem_cons]
        rcases hk0 with h | h
        · left; exact h
        · right; exact ih k0 (by simpa using h)

theorem btreeInsert_keys_self (k v : String) (l : List (String × String)) :
    k ∈ (btreeInsert k v l).map Prod.fst := by
  induction l with
  | nil => simp [btreeInsert]
  | cons q rest ih =>
    unfold btreeInsert
    by_cases h1 : k = q.1
    · simp [h1]
    · by_cases h2 : k < q.1
      · simp [h1, h2]
      · simp only [h1, h2, if_false, List.map_cons, List.mem_cons]
        right; exact ih



theorem btreeInsert_keys_sub (k v : String) (l : List (String × String)) :
    ∀ k0 ∈ (btreeInsert k v l).map Prod.fst, k0 = k ∨ k0 ∈ l.map Prod.fst := by
  intro k0 hk0
  rw [List.mem_map] at hk0
  obtain ⟨p, hp, hpk⟩ := hk0
  rcases btreeInsert_mem k v l p hp with h | h
  · left; rw [← hpk, h]
  · right; rw [← hpk]; exact List.mem_map_of_mem Prod.fst h

theorem btreeInsert_pairwise (k v : String) (l : List (String × String))
    (h : ((l.map Prod.fst).Pairwise (· < ·))) :
    (((btreeInsert k v l).map Prod.fst).Pairwise (· < ·)) := by
  induction l with
  | nil => simp [btreeInsert]
  | cons q rest ih =>
    rw [List.map_cons, List.pairwise_cons] at h
    obtain ⟨hq, hrest⟩ := h
    unfold btreeInsert
    by_cases h1 : k = q.1
    · simp only [h1, if_true, List.map_cons, List.pairwise_cons]
      exact ⟨hq, hrest⟩
    · by_cases h2 : k < q.1
      · simp only [h1, h2, if_false, if_true, List.map_cons, List.pairwise_cons]
        refine ⟨?_, hq, hrest⟩
        intro b hb
        rw [List.mem_cons] at hb
        rcases hb with hb | hb
        · rw [hb]; exact h2
        · exact lt_trans h2 (hq b hb)
      · have h3 : q.1 < k := by
          rcases lt_trichotomy k q.1 with h | h | h
          · exact absurd h h2
          · exact absurd h h1
          · exact h
        simp only [h1, h2, if_false, List.map_cons, List.pairwise_cons]
        refine ⟨?_, ih hrest⟩
        intro b hb
        rcases btreeInsert_keys_sub k v rest b hb with hbk | hbk
        · rw [hbk]; exact h3
        · exact hq b hbk

theorem btreeCollect_pairwise (l : List (String × String)) :
    (((btreeCollect l).map Prod.fst).Pairwise (· < ·)) := by
  have go : ∀ (l : List (String × String)) (acc : List (String × String)),
      ((acc.map Prod.fst).Pairwise (· < ·)) →
      (((l.foldl (fun acc kv => btreeInsert kv.1 kv.2 acc) acc).map Prod.fst).Pairwise (· < ·)) := by
    intro l
    induction l with
    | nil => intro acc h; simpa using h
    | cons kv rest ih =>
      intro acc h
      exact ih (btreeInsert kv.1 kv.2 acc) (btreeInsert_pairwise kv.1 kv.2 acc h)
  exact go l [] (by simp)

theorem btreeCollect_keys_nodup (l : List (String × String)) :
    ((btreeCollect l).map Prod.fst).Nodup :=
  (btreeCollect_pairwise l).imp ne_of_lt

theorem btreeCollect_mem (l : List (String × String)) :
    ∀ p ∈ btreeCollect l, p ∈ l := by
  have go : ∀ (l : List (String × String)) (acc : List (String × String)),
      ∀ p ∈ l.foldl (fun acc kv => btreeInsert kv.1 kv.2 acc) acc, p ∈ acc ∨ p ∈ l := by
    intro l
    induction l with
    | nil => intro acc p hp; left; simpa using hp
    | cons kv rest ih =>
      intro acc p hp
      rcases ih (btreeInsert kv.1 kv.2 acc) p hp with h | h
      · rcases btreeInsert_mem kv.1 kv.2 acc p h with h' | h'
        · right; rw [h']; simp
        · left; exact h'
      · right; exact List.mem_cons_of_mem _ h
  intro p hp
  rcases go l [] p hp with h | h
  · simp at h
  · exact h

theorem btreeCollect_keys_sup (l : List (String × String)) :
    ∀ k ∈ l.map Prod.fst, k ∈ (btreeCollect l).map Prod.fst := by
  have go : ∀ (l : List (String × String)) (acc : List (String × String)),
      ∀ k, (k ∈ acc.map Prod.fst ∨ k ∈ l.map Prod.fst) →
        k ∈ (l.foldl (fun acc kv => btreeInsert kv.1 kv.2 acc) acc).map Prod.fst := by
    intro l
    induction l with
    | nil => intro acc k h; rcases h with h | h
             · simpa using h
             · simp at h
    | cons kv rest ih =>
      intro acc k h
      apply ih (btreeInsert kv.1 kv.2 acc) k
      rcases h with h | h
      · left; exact btreeInsert_keys_sup kv.1 kv.2 acc k h
      · rw [List.map_cons, List.mem_cons] at h
        rcases h with h | h
        · left; rw [h]; exact btreeInsert_keys_self kv.1 kv.2 acc
        · right; exact h
  intro k hk
  exact go l [] k (Or.inr hk)

theorem mem_depResults (deps : List (String × String)) (ign ws files : List String)
    (r : SingleDepResult) (h : r ∈ depResults deps ign ws files) :
    ∃ kv ∈ deps, classifyDep ign ws kv.1 (foundOnceIn kv.2 files) = some r := by
  unfold depResults at h
  rw [List.mem_filterMap] at h
  exact h

theorem mem_unused_list (deps : List (String × String)) (ign ws files : List String)
    (d : String) (h : d ∈ (collectAnalysis (depResults deps ign ws files)).1) :
    ∃ cn, (d, cn) ∈ deps ∧ foundOnceIn cn files = false
      ∧ ign.contains d = false ∧ ws.contains d = false := by
  rw [collectAnalysis_eq] at h
  simp only [List.mem_filterMap] at h
  obtain ⟨r, hr, hrd⟩ := h
  obtain ⟨kv, hkv, hcl⟩ := mem_depResults _ _ _ _ _ hr
  rcases classifyDep_eq_some _ _ _ _ _ hcl with ⟨hru, hf, hi, hw⟩ | ⟨hru, hf, hi⟩
  · rw [hru] at hrd
    simp only [unusedPart, Option.some.injEq] at hrd
    subst hrd
    exact ⟨kv.2, hkv, hf, hi, hw⟩
  · rw [hru] at hrd
    simp [unusedPart] at hrd

theorem mem_ignored_list (deps : List (String × String)) (ign ws files : List String)
    (d : String) (h : d ∈ (collectAnalysis (depResults deps ign ws files)).2) :
    ∃ cn, (d, cn) ∈ deps ∧ foundOnceIn cn files = true ∧ ign.contains d = true := by
  rw [collectAnalysis_eq] at h
  simp only [List.mem_filterMap] at h
  obtain ⟨r, hr, hrd⟩ := h
  obtain ⟨kv, hkv, hcl⟩ := mem_depResults _ _ _ _ _ hr
  rcases classifyDep_eq_some _ _ _ _ _ hcl with ⟨hru, hf, hi, hw⟩ | ⟨hru, hf, hi⟩
  · rw [hru] at hrd
    simp [ignoredPart] at hrd
  · rw [hru] at hrd
    simp only [ignoredPart, Option.some.injEq] at hrd
    subst hrd
    exact ⟨kv.2, hkv, hf, hi⟩

theorem unused_filter_view (deps : List (String × String)) (ign ws files : List String) :
    (collectAnalysis (depResults deps ign ws files)).1
      = (deps.filter fun kv =>
          decide (classifyDep ign ws kv.1 (foundOnceIn kv.2 files) = some (.unused kv.1))).map
          Prod.fst := by
  rw [collectAnalysis_eq]
  show (depResults deps ign ws files).filterMap unusedPart = _
  induction deps with
  | nil => rfl
  | cons kv rest ih =>
    unfold depResults at ih ⊢
    rw [List.filterMap_cons, List.filter_cons]
    cases hcl : classifyDep ign ws kv.1 (foundOnceIn kv.2 files) with
    | none =>
      rw [if_neg (by simp [hcl])]
      exact ih
    | some r =>
      rcases classifyDep_eq_some _ _ _ _ _ hcl with ⟨hru, _, _, _⟩ | ⟨hru, _, _⟩ <;> subst hru
      · rw [List.filterMap_cons, if_pos (by simp [hcl])]
        show kv.1 :: _ = _
        rw [List.map_cons, ih]
      · rw [List.filterMap_cons, if_neg (by simp [hcl])]
        show List.filterMap unusedPart _ = _
        exact ih

theorem ignored_filter_view (deps : List (String × String)) (ign ws files : List String) :
    (collectAnalysis (depResults deps ign ws files)).2
      = (deps.filter fun kv =>
          decide (classifyDep ign ws kv.1 (foundOnceIn kv.2 files)
            = some (.ignoredButUsed kv.1))).map Prod.fst := by
  rw [collectAnalysis_eq]
  show (depResults deps ign ws files).filterMap ignoredPart = _
  induction deps with
  | nil => rfl
  | cons kv rest ih =>
    unfold depResults at ih ⊢
    rw [List.filterMap_cons, List.filter_cons]
    cases hcl : classifyDep ign ws kv.1 (foundOnceIn kv.2 files) with
    | none =>
      rw [if_neg (by simp [hcl])]
      exact ih
    | some r =>
      rcases classifyDep_eq_some _ _ _ _ _ hcl with ⟨hru, _, _, _⟩ | ⟨hru, _, _⟩ <;> subst hru
      · rw [List.filterMap_cons, if_neg (by simp [hcl])]
        show List.filterMap ignoredPart _ = _
        exact ih
      · rw [List.filterMap_cons, if_pos (by simp [hcl])]
        show kv.1 :: _ = _
        rw [List.map_cons, ih]

theorem replaceDashes_no_dash (s : String) :
    (replaceDashes s).data.contains '-' = false := by
  show ((s.data.map fun c => if c == '-' then '_' else c).contains '-') = false
  induction s.data with
  | nil => rfl
  | cons c cs ih =>
    rw [List.map_cons, List.contains_cons]
    by_cases hc : c = '-'
    · simp only [hc, beq_self_eq_true, if_true]
      rw [ih]
      decide
    · have : (c == '-') = false := by simp [hc]
      simp only [this, if_false]
      rw [ih]
      simp [Ne.symm hc]

theorem computeDependencies_manifest_only (m : Manifest) :
    computeDependencies m none
      = some (btreeCollect (m.dependencies.map fun k => (k, replaceDashes k))) := rfl

-- values of the manifest-only map are dash-free
theorem manifest_only_no_dash (m : Manifest) (deps : List (String × String))
    (h : computeDependencies m none = some deps) :
    ∀ kv ∈ deps, searchNewAssertHolds kv.2 = true := by
  rw [computeDependencies_manifest_only] at h
  injection h with h
  intro kv hkv
  subst h
  have := btreeCollect_mem _ kv hkv
  rw [List.mem_map] at this
  obtain ⟨k, _, hk⟩ := this
  rw [← hk]
  show (!(replaceDashes k).data.contains '-') = true
  rw [replaceDashes_no_dash]
  rfl

theorem getTableDepsInner_remove (dep : String) (items : List (String × TomlItem))
    (ts : List (String × List (String × TomlItem)))
    (h : getTableDepsInner items = .ok ts) :
    getTableDepsInner (removeDepInner dep items) = .ok (ts.map (filterTableSnap dep)) := by
  induction items generalizing ts with
  | nil =>
    unfold getTableDepsInner at h
    injection h with h
    subst h
    rfl
  | cons kv rest ih =>
    unfold getTableDepsInner at h
    unfold removeDepInner
    rw [List.map_cons]
    by_cases hk : isDepTableKey kv.1 = true
    · rw [if_pos hk] at h
      cases hv : kv.2 with
      | table entries =>
        rw [hv] at h
        cases hrest : getTableDepsInner rest with
        | error e => rw [hrest] at h; exact absurd h (by simp [Except.map])
        | ok ts' =>
          rw [hrest] at h
          simp only [Except.map] at h
          injection h with h
          subst h
          rw [if_pos hk]
          show getTableDepsInner
              ((kv.1, TomlItem.table (entries.filter fun e => !(e.1 == dep))) ::
                removeDepInner dep rest)
            = Except.ok (List.map (filterTableSnap dep) ((kv.1, entries) :: ts'))
          unfold getTableDepsInner
          rw [if_pos hk]
          rw [ih ts' hrest]
          rfl
      | value => rw [hv] at h; exact absurd h (by simp)
    · rw [if_neg hk] at h
      rw [if_neg hk]
      show getTableDepsInner (kv :: removeDepInner dep rest) = _
      unfold getTableDepsInner
      rw [if_neg hk]
      exact ih ts h

theorem getTableDepsTargets_remove (dep : String) (targets : List (String × TomlItem))
    (ts : List (String × List (String × TomlItem)))
    (h : getTableDepsTargets targets = .ok ts) :
    getTableDepsTargets (removeDepTargets dep targets) = .ok (ts.map (filterTableSnap dep)) := by
  induction targets generalizing ts with
  | nil =>
    unfold getTableDepsTargets at h
    injection h with h
    subst h
    rfl
  | cons t rest ih =>
    unfold getTableDepsTargets at h
    unfold removeDepTargets
    rw [List.map_cons]
    by_cases hc : strStartsWith "cfg(" t.1 = true
    · rw [if_pos hc] at h
      cases hv : t.2 with
      | table tentries =>
        rw [hv] at h
        simp only [] at h
        cases hin : getTableDepsInner tentries with
        | error e => rw [hin] at h; exact absurd h (by simp [Except.bind])
        | ok ts1 =>
          rw [hin] at h
          cases hrest : getTableDepsTargets rest with
          | error e =>
            rw [hrest] at h
            exact absurd h (by simp [Except.bind, Except.map])
          | ok ts2 =>
            rw [hrest] at h
            simp only [Except.bind, Except.map] at h
            injection h with h
            subst h
            rw [if_pos hc]
            show getTableDepsTargets
                ((t.1, TomlItem.table (removeDepInner dep tentries)) :: removeDepTargets dep rest)
              = Except.ok (List.map (filterTableSnap dep) (ts1 ++ ts2))
            unfold getTableDepsTargets
            rw [if_pos hc]
            simp only []
            rw [getTableDepsInner_remove dep tentries ts1 hin, ih ts2 hrest]
            simp [Except.bind, Except.map, List.map_append]
      | value =>
        rw [hv] at h
        rw [if_pos hc]
        show getTableDepsTargets (t :: removeDepTargets dep rest) = _
        unfold getTableDepsTargets
        rw [if_pos hc, hv]
        exact ih ts h
    · rw [if_neg hc] at h
      rw [if_neg hc]
      show getTableDepsTargets (t :: removeDepTargets dep rest) = _
      unfold getTableDepsTargets
      rw [if_neg hc]
      exact ih ts h

theorem get_table_deps_remove (dep : String) (doc : List (String × TomlItem))
    (ts : List (String × List (String × TomlItem)))
    (h : get_table_deps doc = .ok ts) :
    get_table_deps (removeDepEverywhere dep doc) = .ok (ts.map (filterTableSnap dep)) := by
  induction doc generalizing ts with
  | nil =>
    unfold get_table_deps at h
    injection h with h
    subst h
    rfl
  | cons kv rest ih =>
    unfold get_table_deps at h
    unfold removeDepEverywhere
    rw [List.map_cons]
    by_cases hk : isDepTableKey kv.1 = true
    · rw [if_pos hk] at h
      cases hv : kv.2 with
      | table entries =>
        rw [hv] at h
        cases hrest : get_table_deps rest with
        | error e => rw [hrest] at h; exact absurd h (by simp [Except.map])
        | ok ts' =>
          rw [hrest] at h
          simp only [Except.map] at h
          injection h with h
          subst h
          rw [if_pos hk]
          show get_table_deps
              ((kv.1, TomlItem.table (entries.filter fun e => !(e.1 == dep))) ::
                removeDepEverywhere dep rest)
            = Except.ok (List.map (filterTableSnap dep) ((kv.1, entries) :: ts'))
          unfold get_table_deps
          rw [if_pos hk]
          rw [ih ts' hrest]
          rfl
      | value => rw [hv] at h; exact absurd h (by simp)
    · by_cases ht : kv.1 == "target"
      · rw [if_neg hk, if_pos ht] at h
        cases hv : kv.2 with
        | table targets =>
          rw [hv] at h
          simp only [] at h
          cases htg : getTableDepsTargets targets with
          | error e => rw [htg] at h; exact absurd h (by simp [Except.bind])
          | ok ts1 =>
            rw [htg] at h
            cases hrest : get_table_deps rest with
            | error e =>
              rw [hrest] at h
              exact absurd h (by simp [Except.bind, Except.map])
            | ok ts2 =>
              rw [hrest] at h
              simp only [Except.bind, Except.map] at h
              injection h with h
              subst h
              rw [if_neg hk, if_pos ht]
              show get_table_deps
                  ((kv.1, TomlItem.table (removeDepTargets dep targets)) ::
                    removeDepEverywhere dep rest)
                = Except.ok (List.map (filterTableSnap dep) (ts1 ++ ts2))
              unfold get_table_deps
              rw [if_neg hk, if_pos ht]
              simp only []
              rw [getTableDepsTargets_remove dep targets ts1 htg, ih ts2 hrest]
              simp [Except.bind, Except.map, List.map_append]
        | value => rw [hv] at h; exact absurd h (by simp)
      · rw [if_neg hk, if_neg ht] at h
        rw [if_neg hk, if_neg ht]
        show get_table_deps (kv :: removeDepEverywhere dep rest) = _
        unfold get_table_deps
        rw [if_neg hk, if_neg ht]
        exact ih ts h

theorem removeDepEverywhere_preserves (dep : String) (doc : List (String × TomlItem)) :
    ∀ kv ∈ doc, isDepTableKey kv.1 = false → (kv.1 == "target") = false →
      kv ∈ removeDepEverywhere dep doc := by
  intro kv hkv h1 h2
  unfold removeDepEverywhere
  have : (fun kv : String × TomlItem =>
      if isDepTableKey kv.1 then
        match kv.2 with
        | .table entries => (kv.1, TomlItem.table (entries.filter fun e => !(e.1 == dep)))
        | .value => kv
      else if kv.1 == "target" then
        match kv.2 with
        | .table targets => (kv.1, TomlItem.table (removeDepTargets dep targets))
        | .value => kv
      else kv) kv = kv := by
    simp only [h1, h2, Bool.false_eq_true, if_false]
  rw [← this]
  exact List.mem_map_of_mem _ hkv

theorem remove_dependencies_single (doc : List (String × TomlItem)) (dep : String)
    (matched : List (String × List (String × TomlItem)))
    (h : get_table_deps doc = .ok matched) :
    (matched.any (fun t => t.2.any fun e => e.1 == dep) = true →
       remove_dependencies doc [dep] = .ok (removeDepEverywhere dep doc))
  ∧ (matched.any (fun t => t.2.any fun e => e.1 == dep) = false →
       remove_dependencies doc [dep] = .error (some ⟨dep, matched.map Prod.fst⟩)) := by
  constructor
  · intro hany
    unfold remove_dependencies
    rw [h]
    show List.foldlM _ doc [dep] = _
    unfold List.foldlM
    simp only []
    rw [h]
    simp only []
    rw [if_pos (by rw [hany])]
    rfl
  · intro hany
    unfold remove_dependencies
    rw [h]
    show List.foldlM _ doc [dep] = _
    unfold List.foldlM
    simp only []
    rw [h]
    simp only []
    rw [if_neg (by rw [hany]; exact Bool.false_ne_true)]
    rfl

/-- Inversion of `find_unused` on a successful analysis: the manifest has a
package section, the dependency map computed, and the analysis is the aggregation
of the per-dependency classifications. -/
theorem find_unused_inv (m : Manifest) (ws files : List String) (md : Option Metadata)
    (a : PackageAnalysis) (ha : find_unused m ws md files = some (some a)) :
    ∃ pkg deps, m.package = some pkg ∧ computeDependencies m md = some deps ∧
      a = ⟨pkg.name,
        (collectAnalysis (depResults deps (packageIgnored m) ws files)).1,
        (collectAnalysis (depResults deps (packageIgnored m) ws files)).2⟩ := by
  unfold find_unused at ha
  cases hp : m.package with
  | none => rw [hp] at ha; exact absurd ha (by simp)
  | some pkg =>
    rw [hp] at ha
    cases hd : computeDependencies m md with
    | none => rw [hd] at ha; exact absurd ha (by simp)
    | some deps =>
      rw [hd] at ha
      simp only [Option.map, Option.some.injEq] at ha
      exact ⟨pkg, deps, rfl, rfl, ha.symm⟩

/-!
# Fidelity checks

The assertions of the repository's own `test_regexp` (src/search_unused.rs lines
536–770), evaluated against the embedded search.
-/

example : searchString "log" "use da_force_luke;" = false := by decide
example : searchString "log" "use flog;" = false := by decide
example : searchString "log" "use log_once;" = false := by decide
example : searchString "log" "use log_once::info;" = false := by decide
example : searchString "log" "use flog::flag;" = false := by decide
example : searchString "log" "flog::flag;" = false := by decide
example : searchString "log" "use ::flog;" = false := by decide
example : searchString "log" "use :log;" = false := by decide
example : searchString "log" "use log;" = true := by decide
example : searchString "log" "use ::log;" = true := by decide
example : searchString "log" "use log::\x7bself\x7d;" = true := by decide
example : searchString "log" "use log::*;" = true := by decide
example : searchString "log" "use log::info;" = true := by decide
example : searchString "log" "use log as logging;" = true := by decide
example : searchString "log" "extern crate log;" = true := by decide
example : searchString "log" "extern crate log as logging" = true := by decide
example : searchString "Log" "use log;" = true := by decide
example : searchString "log" "use Log::info;" = true := by decide
example : searchString "log" "Log::info!(\"fyi\")" = true := by decide
example : searchString "bitflags" "\nuse std::fmt;\nbitflags::macro! \x7b\n" = true := by decide
example : searchString "Bitflags" "\nuse std::fmt;\nbitflags::macro! \x7b\n" = true := by decide
example : searchString "log" "use \x7b log as logging \x7d;" = true := by decide
example : searchString "lol" "use \x7b log as logging \x7d;" = false := by decide
example : searchString "log" "\nuse \x7b\n    x::\x7b y \x7d,\n    log as logging,\n\x7d;\n" = true := by decide
example :
    searchString "log"
      "\nuse \x7b\n    x as y\n\x7d;\ntype logging = u64;\nfn main() \x7b\n    let func = |log: u32| \x7b\n        log as logging\n    \x7d;\n    func(42);\n\x7d\n"
    = false := by decide
example :
    searchString "static_assertions"
      "\n    // lol\n    static_assertions::assert_not_impl_all!(A: B);\n    " = true := by decide
example :
    searchString "futures"
      "\n// the [`futures::executor::block_on`] function\npub use futures::future;\n\n    "
    = true := by decide
example : searchString "futures" "pub use \x7basync_trait, ::futures, reqwest\x7d;" = true := by decide
example : searchString "futures" "use not_futures::futures::stuff_in_futures;" = false := by decide
example :
    searchString "futures"
      "\npub use \x7b\n    async_trait,\n    not_futures::futures,\n    reqwest,\n\x7d;" = false := by decide
example : searchString "futures" " ::futures::mod1" = true := by decide
example : searchString "log" "// use log;" = false := by decide

/-!
# Claims
-/

/-- C1: the classification of one dependency (ignore policy).  With no textual
reference, the key goes to `unused` unless it is package- or workspace-ignored, in
which case it is suppressed; with a reference, it goes to `ignored_used` iff it is
package-ignored, and is silently dropped otherwise.  In particular, only
package-level ignores ever produce an `ignored_used` entry. -/
theorem C1_ignore_policy (ign ws : List String) (d : String) (found : Bool) :
    (classifyDep ign ws d false =
      if d ∈ ign ∨ d ∈ ws then none else some (.unused d))
    ∧ (classifyDep ign ws d true =
      if d ∈ ign then some (.ignoredButUsed d) else none)
    ∧ (classifyDep ign ws d found = some (.ignoredButUsed d) → d ∈ ign ∧ found = true) := by
  refine ⟨?_, ?_, ?_⟩
  · by_cases h1 : d ∈ ign <;> by_cases h2 : d ∈ ws <;>
      simp [classifyDep, h1, h2, List.elem_iff]
  · by_cases h1 : d ∈ ign <;> simp [classifyDep, h1, List.elem_iff]
  · cases found <;> by_cases h1 : d ∈ ign <;> by_cases h2 : d ∈ ws <;>
      simp [classifyDep, h1, h2, List.elem_iff]

/-- Witness for C1 at a concrete input: the key `a`, package-ignored and found,
is classified `ignored_used`, and the theorem recovers that `a` is
package-ignored. -/
theorem C1_ignore_policy_witness : "a" ∈ (["a"] : List String) ∧ true = true :=
  (C1_ignore_policy ["a"] [] "a" true).2.2 (by decide)

/-- C2 counterexample: in manifest-only mode, the *renamed-in-spec* input
(`tracing = { package = "log" }`, source `log::info!();`) yields
`unused = ["tracing"]`, not `unused = []` as the claim states — the declared key
`tracing` maps to the identifier `tracing`, which the source never references, so
it is reported. -/
theorem C2_renamed_counterexample :
    find_unused c2Manifest [] none c2Files =
      some (some { packageName := "renamed", unused := ["tracing"], ignoredUsed := [] })
    ∧ (["tracing"] : List String) ≠ [] :=
  ⟨by decide, by decide⟩

/-- C2 (amended): on the *renamed-in-spec* input, metadata-assisted mode returns
`unused = ["tracing"]` as the claim states; manifest-only mode returns
`unused = ["tracing"]` as well (not `[]`): in both modes the declared key
`tracing` maps to the identifier `tracing`, which the source never references. -/
theorem C2_renamed_in_spec :
    find_unused c2Manifest [] (some c2Metadata) c2Files =
      some (some { packageName := "renamed", unused := ["tracing"], ignoredUsed := [] })
    ∧ find_unused c2Manifest [] none c2Files =
      some (some { packageName := "renamed", unused := ["tracing"], ignoredUsed := [] }) := by
  constructor <;> decide

/-- C3 (amended): in both modes, every `unused` key is a key of the computed
dependency map and every `ignored_used` key is package-ignored and a key of that
map; in manifest-only mode the map's keys are declared runtime-dependency keys,
giving the claim as stated.  In metadata-assisted mode the map's keys come from
the resolve graph and need not be declared runtime keys — see the
counterexample. -/
theorem C3_subset_invariant (m : Manifest) (ws files : List String) (md : Option Metadata)
    (deps : List (String × String)) (a : PackageAnalysis)
    (hdeps : computeDependencies m md = some deps)
    (ha : find_unused m ws md files = some (some a)) :
    (∀ d ∈ a.unused, d ∈ deps.map Prod.fst)
    ∧ (∀ d ∈ a.ignoredUsed, d ∈ packageIgnored m ∧ d ∈ deps.map Prod.fst)
    ∧ (md = none → ∀ d ∈ a.unused, d ∈ m.dependencies)
    ∧ (md = none → ∀ d ∈ a.ignoredUsed, d ∈ packageIgnored m ∧ d ∈ m.dependencies) := by
  obtain ⟨pkg, deps', hp, hd', haeq⟩ := find_unused_inv m ws files md a ha
  rw [hdeps] at hd'
  injection hd' with hd'
  subst hd'
  have hu : ∀ d ∈ a.unused, ∃ cn, (d, cn) ∈ deps := by
    intro d hd
    rw [haeq] at hd
    obtain ⟨cn, hcn, -, -, -⟩ := mem_unused_list deps (packageIgnored m) ws files d hd
    exact ⟨cn, hcn⟩
  have hi : ∀ d ∈ a.ignoredUsed,
      (∃ cn, (d, cn) ∈ deps) ∧ (packageIgnored m).contains d = true := by
    intro d hd
    rw [haeq] at hd
    obtain ⟨cn, hcn, -, hig⟩ := mem_ignored_list deps (packageIgnored m) ws files d hd
    exact ⟨⟨cn, hcn⟩, hig⟩
  have keymap : ∀ d, (∃ cn, (d, cn) ∈ deps) → d ∈ deps.map Prod.fst := by
    intro d ⟨cn, hcn⟩
    exact List.mem_map_of_mem Prod.fst hcn
  have manifestKeys : md = none → ∀ d, d ∈ deps.map Prod.fst → d ∈ m.dependencies := by
    intro hmd d hd
    subst hmd
    rw [computeDependencies_manifest_only] at hdeps
    injection hdeps with hdeps
    subst hdeps
    rw [List.mem_map] at hd
    obtain ⟨kv, hkv, hfst⟩ := hd
    have := btreeCollect_mem _ kv hkv
    rw [List.mem_map] at this
    obtain ⟨k, hk, hkeq⟩ := this
    rw [← hfst, ← hkeq]
    exact hk
  refine ⟨?_, ?_, ?_, ?_⟩
  · intro d hd; exact keymap d (hu d hd)
  · intro d hd
    obtain ⟨hex, hig⟩ := hi d hd
    exact ⟨List.elem_iff.mp hig, keymap d hex⟩
  · intro hmd d hd; exact manifestKeys hmd d (keymap d (hu d hd))
  · intro hmd d hd
    obtain ⟨hex, hig⟩ := hi d hd
    exact ⟨List.elem_iff.mp hig, manifestKeys hmd d (keymap d hex)⟩

/-- Witness for C3 at the manifest-only *renamed-in-spec* input: the reported
key `tracing` is a key of the computed dependency map. -/
theorem C3_subset_invariant_witness :
    "tracing" ∈ ([("tracing", "tracing")] : List (String × String)).map Prod.fst :=
  (C3_subset_invariant c2Manifest [] c2Files none [("tracing", "tracing")]
    ⟨"renamed", ["tracing"], []⟩ (by decide) (by decide)).1 "tracing" (by decide)

/-- C3 counterexample: in metadata-assisted mode the claim fails.  For the
package `p` whose runtime-dependency table is empty (its dependency `foo` is
declared under `[dev-dependencies]`), the resolve graph still carries the edge
for `foo`, and `find_unused` reports `unused = ["foo"]` — a key that is not a
declared runtime-dependency key of the manifest. -/
theorem C3_subset_counterexample :
    find_unused c3Manifest [] (some c3Metadata) [] =
      some (some { packageName := "p", unused := ["foo"], ignoredUsed := [] })
    ∧ "foo" ∉ c3Manifest.dependencies :=
  ⟨by decide, by decide⟩

/-- C4: in manifest-only mode the dependency map is exactly
`{(k, k with every '-' replaced by '_') | k ∈ runtime keys}`: every map entry is a
runtime key paired with its dash-converted form, every runtime key appears, the
map is independent of the dev-, build- and per-target tables, and a key not in
the runtime table is never reported by detection. -/
theorem C4_manifest_only_resolver (m : Manifest) :
    computeDependencies m none
      = some (btreeCollect (m.dependencies.map fun k => (k, replaceDashes k)))
    ∧ (∀ kv ∈ (btreeCollect (m.dependencies.map fun k => (k, replaceDashes k))),
        kv.1 ∈ m.dependencies ∧ kv.2 = replaceDashes kv.1)
    ∧ (∀ k ∈ m.dependencies,
        k ∈ (btreeCollect (m.dependencies.map fun k => (k, replaceDashes k))).map Prod.fst)
    ∧ (∀ dev bui tgt,
        computeDependencies
          { package := m.package, dependencies := m.dependencies, devDependencies := dev,
            buildDependencies := bui, targetDependencies := tgt } none
          = computeDependencies m none)
    ∧ (∀ ws files a, find_unused m ws none files = some (some a) →
        ∀ d, d ∉ m.dependencies → d ∉ a.unused ∧ d ∉ a.ignoredUsed) := by
  refine ⟨rfl, ?_, ?_, ?_, ?_⟩
  · intro kv hkv
    have := btreeCollect_mem _ kv hkv
    rw [List.mem_map] at this
    obtain ⟨k, hk, hkeq⟩ := this
    constructor
    · rw [← hkeq]; exact hk
    · rw [← hkeq]
  · intro k hk
    apply btreeCollect_keys_sup
    rw [List.mem_map]
    exact ⟨(k, replaceDashes k), List.mem_map_of_mem _ hk, rfl⟩
  · intro dev bui tgt; rfl
  · intro ws files a ha d hd
    obtain ⟨pkg, deps, hp, hdeps, haeq⟩ := find_unused_inv m ws files none a ha
    rw [computeDependencies_manifest_only] at hdeps
    injection hdeps with hdeps
    subst hdeps
    constructor
    · intro hmem
      rw [haeq] at hmem
      obtain ⟨cn, hcn, -, -, -⟩ := mem_unused_list _ _ _ _ _ hmem
      have := btreeCollect_mem _ _ hcn
      rw [List.mem_map] at this
      obtain ⟨k, hk, hkeq⟩ := this
      apply hd
      have : k = d := congrArg Prod.fst hkeq
      rw [← this]; exact hk
    · intro hmem
      rw [haeq] at hmem
      obtain ⟨cn, hcn, -, -⟩ := mem_ignored_list _ _ _ _ _ hmem
      have := btreeCollect_mem _ _ hcn
      rw [List.mem_map] at this
      obtain ⟨k, hk, hkeq⟩ := this
      apply hd
      have : k = d := congrArg Prod.fst hkeq
      rw [← this]; exact hk

/-- Witness for C4: on the *renamed-in-spec* manifest, the declared runtime key
`tracing` appears in the manifest-only dependency map. -/
theorem C4_manifest_only_resolver_witness :
    "tracing" ∈ (btreeCollect (c2Manifest.dependencies.map fun k =>
      (k, replaceDashes k))).map Prod.fst :=
  (C4_manifest_only_resolver c2Manifest).2.2.1 "tracing" (by decide)

/-- C5: compound/group imports.  The crate identifier is found when it occurs at
the group's top level and not when it occurs only nested under another module
path inside the group. -/
theorem C5_compound_import :
    searchString "futures" "pub use \x7basync_trait, futures, reqwest\x7d;" = true
    ∧ searchString "futures" "pub use \x7basync_trait, not_futures::futures, reqwest\x7d;" = false := by
  constructor <;> decide

/-- C6 counterexample: matching of the crate identifier is not case-insensitive
in general.  The multi-line group-import matcher matches the identifier
case-sensitively, so `search("Log", "use { log as logging };") = false` although
`search("log", "use { log as logging };") = true`. -/
theorem C6_case_counterexample :
    searchString "log" "use \x7b log as logging \x7d;" = true
    ∧ searchString "Log" "use \x7b log as logging \x7d;" = false := by
  constructor <;> decide

/-- C6 (amended): in the single-line matcher, matching of the crate identifier is
case-insensitive — the result depends only on the identifier's lower-cased
form — and the claim's examples hold: `search("log", "Log::info!();") = true` and
`search("Log", "use log;") = true`.  The surrounding keywords are case-sensitive
(`search("log", "USE log;") = false`).  The multi-line group-import matcher,
however, matches the identifier case-sensitively (see the counterexample). -/
theorem C6_case_insensitive_line :
    (∀ n1 n2 line : List Char, n1.map lowerChar = n2.map lowerChar →
      lineRegexpMatches n1 line = lineRegexpMatches n2 line)
    ∧ searchString "log" "Log::info!();" = true
    ∧ searchString "Log" "use log;" = true
    ∧ searchString "log" "USE log;" = false
    ∧ searchString "log" "Use log;" = false := by
  refine ⟨?_, by decide, by decide, by decide, by decide⟩
  intro n1 n2 line h
  exact lineRegexpMatches_ci n1 n2 h line

/-- Witness for C6: the identifiers `Log` and `log` have the same lower-cased
form, so the single-line matcher treats them identically on `use log;`. -/
theorem C6_case_insensitive_line_witness :
    lineRegexpMatches "Log".data "use log;".data
      = lineRegexpMatches "log".data "use log;".data :=
  C6_case_insensitive_line.1 "Log".data "log".data "use log;".data (by decide)

/-- C7: for every dependency map collected into the `BTreeMap` (both modes
collect into one) and any ignore lists and file set, the `unused` and
`ignored_used` lists of the aggregated analysis are disjoint, and neither
contains a key twice. -/
theorem C7_disjoint_nodup (l : List (String × String)) (ign ws files : List String) :
    (∀ d, d ∈ (collectAnalysis (depResults (btreeCollect l) ign ws files)).1 →
      d ∉ (collectAnalysis (depResults (btreeCollect l) ign ws files)).2)
    ∧ (collectAnalysis (depResults (btreeCollect l) ign ws files)).1.Nodup
    ∧ (collectAnalysis (depResults (btreeCollect l) ign ws files)).2.Nodup := by
  refine ⟨?_, ?_, ?_⟩
  · intro d h1 h2
    obtain ⟨cn, -, -, hig, -⟩ := mem_unused_list _ _ _ _ _ h1
    obtain ⟨cn', -, -, hig'⟩ := mem_ignored_list _ _ _ _ _ h2
    rw [hig] at hig'
    exact Bool.false_ne_true hig'
  · rw [unused_filter_view]
    exact ((btreeCollect_keys_nodup l).sublist
      ((List.filter_sublist _).map Prod.fst))
  · rw [ignored_filter_view]
    exact ((btreeCollect_keys_nodup l).sublist
      ((List.filter_sublist _).map Prod.fst))

/-- Witness for C7 at a concrete input: the key `log`, unused in the single-file
project, is in `unused` and hence (by the theorem) not in `ignored_used`. -/
theorem C7_disjoint_nodup_witness :
    "log" ∉ (collectAnalysis
      (depResults (btreeCollect [("log", "log")]) [] [] ["fn main() \x7b\x7d"])).2 :=
  (C7_disjoint_nodup [("log", "log")] [] [] ["fn main() \x7b\x7d"]).1 "log" (by decide)

/-- C8 (amended): for a document whose searched tables are `matched` — the
top-level runtime/dev/build tables and those of `cfg(…)`-keyed target subtables;
target subtables keyed otherwise (e.g. by a target triple) are not searched —
when some searched table contains the requested name, the removal succeeds and
each searched table loses exactly the entries with that key (the other entries,
their order, and every untouched top-level item are preserved; serialization of
the model is the identity); when none contains it, the result is the error
carrying the attempted name and the names of the searched tables. -/
theorem C8_remove_deps (doc : List (String × TomlItem)) (dep : String)
    (matched : List (String × List (String × TomlItem)))
    (h : get_table_deps doc = .ok matched) :
    ((matched.any fun t => t.2.any fun e => e.1 == dep) = true →
        remove_dependencies doc [dep] = .ok (removeDepEverywhere dep doc)
        ∧ get_table_deps (removeDepEverywhere dep doc)
            = .ok (matched.map (filterTableSnap dep)))
    ∧ ((matched.any fun t => t.2.any fun e => e.1 == dep) = false →
        remove_dependencies doc [dep] = .error (some ⟨dep, matched.map Prod.fst⟩))
    ∧ (∀ kv ∈ doc, isDepTableKey kv.1 = false → (kv.1 == "target") = false →
        kv ∈ removeDepEverywhere dep doc) := by
  refine ⟨?_, ?_, ?_⟩
  · intro hany
    exact ⟨(remove_dependencies_single doc dep matched h).1 hany,
      get_table_deps_remove dep doc matched h⟩
  · exact (remove_dependencies_single doc dep matched h).2
  · exact removeDepEverywhere_preserves dep doc

/-- Witness for C8: removing `serde` from a document whose `[dependencies]`
table contains it succeeds. -/
theorem C8_remove_deps_witness :
    remove_dependencies c8WitnessDoc ["serde"]
      = .ok (removeDepEverywhere "serde" c8WitnessDoc) :=
  ((C8_remove_deps c8WitnessDoc "serde"
    [("dependencies", [("log", .value), ("serde", .value)])] (by rfl)).1 (by rfl)).1

/-- C8 counterexample: the name `winapi` appears in the per-target dependency
table `target.x86_64-unknown-linux-gnu.dependencies` of the document, yet
`remove_dependencies` does not delete it and instead fails — only target
subtables whose key starts with `cfg(` are searched, so per-target tables keyed
by a target triple are missed, contradicting the claim's "deleted from every
dependency table in which it appears". -/
theorem C8_remove_deps_counterexample :
    remove_dependencies c8Doc ["winapi"]
      = .error (some { depName := "winapi", tables := ["dependencies"] })
    ∧ ("winapi", TomlItem.value) ∈ c8TripleDeps :=
  ⟨rfl, List.mem_singleton.mpr rfl⟩

/-- C9: every crate identifier produced by the manifest-only resolver has all
hyphens replaced by underscores, so the assertion `!crate_name.contains('-')` at
the top of `Search::new` holds for every value of the dependency map — the panic
branch is unreachable under that precondition. -/
theorem C9_resolver_no_hyphen (m : Manifest) (deps : List (String × String))
    (h : computeDependencies m none = some deps) :
    ∀ kv ∈ deps, searchNewAssertHolds kv.2 = true :=
  manifest_only_no_dash m deps h

/-- Witness for C9: for the manifest declaring the runtime key `log-once`, the
resolver emits the identifier `log_once`, on which the assertion holds. -/
theorem C9_resolver_no_hyphen_witness : searchNewAssertHolds "log_once" = true :=
  C9_resolver_no_hyphen
    { package := none, dependencies := ["log-once"], devDependencies := [],
      buildDependencies := [], targetDependencies := [] }
    [("log-once", "log_once")] (by decide) ("log-once", "log_once") (by decide)

/-- C10: the coordinator keeps a package's analysis only when it exists and its
`unused` list is non-empty; a dropped package contributes neither `ignored_used`
warnings nor a fix-path rewrite, even when its `ignored_used` is non-empty. -/
theorem C10_empty_unused_dropped (entries : List (String × FindUnusedOutcome)) :
    (∀ a path, (a, path) ∈ analysisResults entries ↔
        ((path, .found a) ∈ entries ∧ a.unused ≠ []))
    ∧ (∀ path dep, (path, dep) ∈ printedWarnings (analysisResults entries) →
        ∃ a, (a, path) ∈ analysisResults entries ∧ a.unused ≠ [] ∧ dep ∈ a.ignoredUsed)
    ∧ (∀ fix path, path ∈ fixedManifests fix (analysisResults entries) →
        fix = true ∧ ∃ a, (a, path) ∈ analysisResults entries ∧ a.unused ≠ []) := by
  have hmem : ∀ a path, (a, path) ∈ analysisResults entries ↔
      ((path, .found a) ∈ entries ∧ a.unused ≠ []) := by
    intro a path
    unfold analysisResults
    rw [List.mem_filterMap]
    constructor
    · rintro ⟨⟨p, outcome⟩, he, hf⟩
      cases outcome with
      | found a' =>
        by_cases hu : a'.unused.isEmpty = true
        · simp [hu] at hf
        · simp only [Bool.not_eq_true] at hu
          simp only [hu, Bool.false_eq_true, if_false, Option.some.injEq, Prod.mk.injEq] at hf
          obtain ⟨ha, hp⟩ := hf
          subst ha; subst hp
          exact ⟨he, by simpa [List.isEmpty_iff] using hu⟩
      | virtualManifest => simp at hf
      | failed => simp at hf
    · rintro ⟨he, hu⟩
      refine ⟨(path, .found a), he, ?_⟩
      have : a.unused.isEmpty = false := by simpa [List.isEmpty_iff] using hu
      simp [this]
  refine ⟨hmem, ?_, ?_⟩
  · intro path dep hpd
    unfold printedWarnings at hpd
    rw [List.mem_flatMap] at hpd
    obtain ⟨⟨a, p⟩, hres, hmap⟩ := hpd
    rw [List.mem_map] at hmap
    obtain ⟨d, hd, hdeq⟩ := hmap
    have hp : p = path := congrArg Prod.fst hdeq
    have hdep : d = dep := congrArg Prod.snd hdeq
    subst hp; subst hdep
    exact ⟨a, hres, ((hmem a p).mp hres).2, hd⟩
  · intro fix path hp
    unfold fixedManifests at hp
    cases fix with
    | false => simp at hp
    | true =>
      simp only [if_true] at hp
      rw [List.mem_map] at hp
      obtain ⟨⟨a, p⟩, hres, hpe⟩ := hp
      subst hpe
      exact ⟨rfl, a, hres, ((hmem a _).mp hres).2⟩

/-- Witness for C10: a package with `unused = ["log"]` is kept by the
coordinator. -/
theorem C10_empty_unused_dropped_witness :
    ((⟨"p", ["log"], ["rand"]⟩ : PackageAnalysis), "m/Cargo.toml")
      ∈ analysisResults [("m/Cargo.toml", .found ⟨"p", ["log"], ["rand"]⟩)] :=
  ((C10_empty_unused_dropped [("m/Cargo.toml", .found ⟨"p", ["log"], ["rand"]⟩)]).1
    ⟨"p", ["log"], ["rand"]⟩ "m/Cargo.toml").mpr ⟨by decide, by decide⟩

end CargoMachete
